import Mathlib

/-!
Shallow embedding of `libafl_qemu/src/snapshot.rs`: the QEMU snapshot/restore
helper (page store, access cache, dirty queue, pending mapping ledger) and its
syscall adapter.  Machine integers (`u64`, `usize`) are modelled as `Nat` with
explicit `% 2 ^ 64` where the source can wrap; the emulator backend is modelled
from the spec's interface description (§6) since `emu.rs` is not part of the
verified sources.
-/

namespace LibAFLSnapshot

/-- `SNAPSHOT_PAGE_SIZE` from the source: pages are 4096 bytes. -/
def SNAPSHOT_PAGE_SIZE : Nat := 4096

/-- `u64::MAX`, the sentinel used for the access cache and failed syscalls. -/
def U64_MAX : Nat := 2 ^ 64 - 1

/-- Modelled from the spec: `MmapPerms` (crate `emu` module, not under the
verified sources) is a read/write/execute permission set. -/
structure MmapPerms where
  r : Bool
  w : Bool
  x : Bool
deriving DecidableEq

/-- Modelled from the spec: `MmapPerms::is_w` — whether the permission set
allows writing. -/
def MmapPerms.is_w (p : MmapPerms) : Bool := p.w

/-- Modelled from the spec: `MmapPerms::try_from` on an `i32`; the decodable
values are exactly the eight combinations 0..7 of the read(1)/write(2)/exec(4)
bits, anything else fails to decode. -/
def MmapPerms.try_from (n : Int) : Option MmapPerms :=
  if 0 ≤ n ∧ n < 8 then
    some ⟨(n.toNat).testBit 0, (n.toNat).testBit 1, (n.toNat).testBit 2⟩
  else none

/-- The Rust cast `a as i32` applied to a `u64` value (truncate to 32 bits,
reinterpret as two's complement). -/
def u64_as_i32 (a : Nat) : Int :=
  if a % 2 ^ 32 < 2 ^ 31 then ((a % 2 ^ 32 : Nat) : Int)
  else ((a % 2 ^ 32 : Nat) : Int) - 2 ^ 32

/-- Modelled from the spec: one entry of the backend's mapping enumeration
(`start`, `end`, permission flags, private/shared flag). -/
structure MapInfo where
  start : Nat
  stop : Nat
  flags : MmapPerms
  is_priv : Bool

/-- Modelled from the spec: the abstract execution backend (`Emulator`):
byte-addressed memory, a break pointer, a mapping list (used at snapshot
time), and the log of protection-change requests issued to it. -/
structure Emulator where
  brk : Nat
  mem : Nat → Nat
  mappings : List MapInfo
  prot_requests : List (Nat × Nat × MmapPerms)

/-- Modelled from the spec: `get_brk`. -/
def Emulator.get_brk (e : Emulator) : Nat := e.brk

/-- Modelled from the spec: `set_brk`. -/
def Emulator.set_brk (e : Emulator) (b : Nat) : Emulator := { e with brk := b }

/-- Modelled from the spec: `read_mem` of exactly one page at `addr`,
returned as an offset-indexed byte buffer. -/
def Emulator.read_page (e : Emulator) (addr : Nat) : Nat → Nat :=
  fun off => e.mem (addr + off)

/-- Modelled from the spec: `write_mem` of exactly one page buffer at `addr`. -/
def Emulator.write_page (e : Emulator) (addr : Nat) (d : Nat → Nat) : Emulator :=
  { e with mem := fun a =>
      if addr ≤ a ∧ a < addr + SNAPSHOT_PAGE_SIZE then d (a - addr) else e.mem a }

/-- Modelled from the spec: `change_prot` — request a protection change on the
backend for `[addr, addr+size)`; the request is recorded. -/
def Emulator.change_prot (e : Emulator) (addr size : Nat) (p : MmapPerms) : Emulator :=
  { e with prot_requests := (addr, size, p) :: e.prot_requests }

/-- `SnapshotPageInfo`: one captured page record.  `data` is the page's
original contents as an offset-indexed buffer (present iff captured). -/
structure SnapshotPageInfo where
  addr : Nat
  perms : MmapPerms
  priv : Bool
  dirty : Bool
  data : Option (Nat → Nat)

/-- `QemuSnapshotHelper`: the snapshot engine state.  `pages` is the page
store (HashMap as a lookup function), `dirty` the dirty queue with the most
recently pushed page at the head (the `Vec`'s popping end), `new_maps` the
pending mapping ledger as a list of `(start, end, perms)` intervals in
insertion order. -/
structure QemuSnapshotHelper where
  access_cache : Fin 4 → Nat
  access_cache_idx : Fin 4
  pages : Nat → Option SnapshotPageInfo
  dirty : List Nat
  brk : Nat
  new_maps : List (Nat × Nat × Option MmapPerms)
  empty : Bool

/-- `QemuSnapshotHelper::new`. -/
def QemuSnapshotHelper.new : QemuSnapshotHelper :=
  { access_cache := fun _ => U64_MAX
    access_cache_idx := 0
    pages := fun _ => none
    dirty := []
    brk := 0
    new_maps := []
    empty := true }

/-- The page addresses visited by a loop `while addr < stop { ...; addr += 4096 }`
starting at `start`, with explicit fuel (the loop runs at most `stop` times
since the cursor strictly increases). -/
def walk_pages_fuel : Nat → Nat → Nat → List Nat
  | 0, _, _ => []
  | fuel + 1, start, stop =>
    if start < stop then start :: walk_pages_fuel fuel (start + SNAPSHOT_PAGE_SIZE) stop
    else []

/-- The pages visited by the snapshot walk of a region `[start, stop)`. -/
def walk_pages (start stop : Nat) : List Nat :=
  walk_pages_fuel stop start stop

/-- The page record captured by `snapshot` for page `addr` of mapping `m`:
permissions and private flag from the mapping, not dirty, and the page's
bytes read from the backend exactly when the mapping is writable. -/
def snapshot_page (e : Emulator) (m : MapInfo) (addr : Nat) : SnapshotPageInfo :=
  { addr := addr
    perms := m.flags
    priv := m.is_priv
    dirty := false
    data := if m.flags.is_w then some (e.read_page addr) else none }

/-- `self.pages.insert(addr, info)` with the record captured for page `addr`
of mapping `m`. -/
def insert_page (e : Emulator) (m : MapInfo) (ps : Nat → Option SnapshotPageInfo)
    (addr : Nat) : Nat → Option SnapshotPageInfo :=
  fun a => if a = addr then some (snapshot_page e m addr) else ps a

/-- The inner loop of `snapshot`: walk one mapping page by page, inserting a
record for each visited page. -/
def snapshot_map (e : Emulator) (ps : Nat → Option SnapshotPageInfo)
    (m : MapInfo) : Nat → Option SnapshotPageInfo :=
  (walk_pages m.start m.stop).foldl (insert_page e m) ps

/-- The page store built by `snapshot`: cleared, then filled by walking every
mapping. -/
def snapshot_pages (e : Emulator) : Nat → Option SnapshotPageInfo :=
  e.mappings.foldl (snapshot_map e) (fun _ => none)

/-- `QemuSnapshotHelper::snapshot`: store the backend's brk, clear the page
store, then walk every mapping page by page inserting a record per page, and
mark the engine primed. -/
def QemuSnapshotHelper.snapshot (h : QemuSnapshotHelper) (e : Emulator) :
    QemuSnapshotHelper :=
  { h with brk := e.get_brk, pages := snapshot_pages e, empty := false }

/-- `QemuSnapshotHelper::page_access`: return on an access-cache hit; otherwise
record the page at the round-robin slot, then mark the page record dirty
(returning early if it was already dirty) and push the page onto the dirty
queue (also when no record exists). -/
def QemuSnapshotHelper.page_access (h : QemuSnapshotHelper) (page : Nat) :
    QemuSnapshotHelper :=
  if h.access_cache 0 = page ∨ h.access_cache 1 = page ∨
      h.access_cache 2 = page ∨ h.access_cache 3 = page then
    h
  else
    let h1 := { h with
      access_cache := Function.update h.access_cache h.access_cache_idx page
      access_cache_idx := h.access_cache_idx + 1 }
    match h1.pages page with
    | some info =>
      if info.dirty then h1
      else
        { h1 with
          pages := fun a =>
            if a = page then some { info with dirty := true } else h1.pages a
          dirty := page :: h1.dirty }
    | none => { h1 with dirty := page :: h1.dirty }

/-- `QemuSnapshotHelper::access`: `page = addr & (SNAPSHOT_PAGE_SIZE - 1)` and
`second_page = (addr + size - 1) & (SNAPSHOT_PAGE_SIZE - 1)` exactly as in the
source (`& 4095` is `% 4096`; the `u64` addition wraps at `2 ^ 64`), calling
`page_access` on `page` and, when the two values differ, on `second_page`. -/
def QemuSnapshotHelper.access (h : QemuSnapshotHelper) (addr size : Nat) :
    QemuSnapshotHelper :=
  let page := addr % SNAPSHOT_PAGE_SIZE
  let h1 := h.page_access page
  let second_page := ((addr + size - 1) % 2 ^ 64) % SNAPSHOT_PAGE_SIZE
  if page ≠ second_page then h1.page_access second_page else h1

/-- `QemuSnapshotHelper::add_mapped`: insert interval
`start .. start + size` (wrapping `u64` addition) with the optional
permissions into the pending mapping ledger. -/
def QemuSnapshotHelper.add_mapped (h : QemuSnapshotHelper) (start size : Nat)
    (perms : Option MmapPerms) : QemuSnapshotHelper :=
  { h with new_maps := h.new_maps ++ [(start, (start + size) % 2 ^ 64, perms)] }

/-- The per-interval loop of `reset_maps`: walk `page` upward by one page while
`page < stop`; on a page with a record, request a protection change back to the
recorded permissions when the ledger carries different ones; on a record-less
page, push a fresh unmap candidate or extend the current run (`prev` tracks
whether the previous page was record-less).  The candidate list keeps the most
recently pushed run at its head (the `Vec`'s end).  Fuel as in
`walk_pages_fuel`. -/
def reset_maps_loop (pages : Nat → Option SnapshotPageInfo)
    (perms : Option MmapPerms) :
    Nat → Emulator → Nat → Nat → List (Nat × Nat) → Bool →
    Emulator × List (Nat × Nat)
  | 0, e, _, _, to_unmap, _ => (e, to_unmap)
  | fuel + 1, e, page, stop, to_unmap, prev =>
    if page < stop then
      match pages page with
      | some info =>
        let e1 :=
          match perms with
          | some p => if info.perms ≠ p then e.change_prot page SNAPSHOT_PAGE_SIZE info.perms else e
          | none => e
        reset_maps_loop pages perms fuel e1 (page + SNAPSHOT_PAGE_SIZE) stop to_unmap false
      | none =>
        let to_unmap1 :=
          if !prev then (page, SNAPSHOT_PAGE_SIZE) :: to_unmap
          else
            match to_unmap with
            | (a, s) :: rest => (a, s + SNAPSHOT_PAGE_SIZE) :: rest
            | [] => to_unmap
        reset_maps_loop pages perms fuel e (page + SNAPSHOT_PAGE_SIZE) stop to_unmap1 true
    else (e, to_unmap)

/-- `QemuSnapshotHelper::reset_maps`: for every nonempty ledger interval (the
interval-tree query `find(0..u64::MAX)` yields exactly the nonempty ones), run
the reconciliation loop starting at `start & (SNAPSHOT_PAGE_SIZE - 1)` exactly
as in the source, then discard the ledger.  The computed unmap-candidate lists
(which the source builds and then drops, the actual unmap call being commented
out) are returned alongside, one list per interval. -/
def QemuSnapshotHelper.reset_maps (h : QemuSnapshotHelper) (e : Emulator) :
    QemuSnapshotHelper × Emulator × List (List (Nat × Nat)) :=
  let fold := (h.new_maps.filter (fun r => decide (r.1 < r.2.1))).foldl
    (fun (acc : Emulator × List (List (Nat × Nat))) r =>
      let start := r.1
      let stop := r.2.1
      let perms := r.2.2
      let page0 := start % SNAPSHOT_PAGE_SIZE
      let res := reset_maps_loop h.pages perms stop acc.1 page0 stop [] false
      (res.1, acc.2 ++ [res.2]))
    (e, [])
  ({ h with new_maps := [] }, fold.1, fold.2)

/-- The dirty-queue drain of `reset`: pop each page (head of the list first,
matching `Vec::pop`), and when a record exists write its captured contents back
(when present) and clear its dirty flag. -/
def drain_dirty (e : Emulator) (pages : Nat → Option SnapshotPageInfo) :
    List Nat → Emulator × (Nat → Option SnapshotPageInfo)
  | [] => (e, pages)
  | page :: rest =>
    match pages page with
    | some info =>
      let e1 := match info.data with
        | some d => e.write_page page d
        | none => e
      drain_dirty e1
        (fun a => if a = page then some { info with dirty := false } else pages a)
        rest
    | none => drain_dirty e pages rest

/-- `QemuSnapshotHelper::reset`: reconcile the mapping ledger, reset the access
cache, drain the dirty queue restoring captured pages, and restore the
backend's brk. -/
def QemuSnapshotHelper.reset (h : QemuSnapshotHelper) (e : Emulator) :
    QemuSnapshotHelper × Emulator :=
  let rm := h.reset_maps e
  let h1 := { rm.1 with access_cache := fun _ => U64_MAX, access_cache_idx := 0 }
  let dd := drain_dirty rm.2.1 h1.pages h1.dirty
  let h2 := { h1 with pages := dd.2, dirty := [] }
  (h2, dd.1.set_brk h2.brk)

/-- Modelled from the spec: the syscall identities `SYS_mmap`, `SYS_mremap`,
`SYS_mprotect` (crate constants, not under the verified sources); the concrete
values are the x86-64 Linux numbers — only their distinctness matters. -/
def SYS_mmap : Int := 9

/-- Modelled from the spec: see `SYS_mmap`. -/
def SYS_mremap : Int := 25

/-- Modelled from the spec: see `SYS_mmap`. -/
def SYS_mprotect : Int := 10

/-- `trace_mmap_snapshot`: the post-syscall adapter.  A failed syscall
(`result == u64::MAX`) is ignored; otherwise mmap records
`add_mapped(result, a1, Some(prot))`, mremap records
`add_mapped(a0, a2, None)`, and mprotect records
`add_mapped(a0, a2, Some(prot))` — each `prot` decoded from `a2 as i32`.
The incoming return value is always passed through. -/
def trace_mmap_snapshot (h : QemuSnapshotHelper) (result : Nat) (sys_num : Int)
    (a0 a1 a2 _a3 _a4 _a5 _a6 _a7 : Nat) : QemuSnapshotHelper × Nat :=
  if result = U64_MAX then (h, result)
  else if sys_num = SYS_mmap then
    match MmapPerms.try_from (u64_as_i32 a2) with
    | some prot => (h.add_mapped result a1 (some prot), result)
    | none => (h, result)
  else if sys_num = SYS_mremap then
    (h.add_mapped a0 a2 none, result)
  else if sys_num = SYS_mprotect then
    match MmapPerms.try_from (u64_as_i32 a2) with
    | some prot => (h.add_mapped a0 a2 (some prot), result)
    | none => (h, result)
  else (h, result)

/-- An engine operation performed between two resets: an instrumented write
notification or a ledger recording. -/
inductive EngineOp where
  | access (addr size : Nat)
  | add_mapped (start size : Nat) (perms : Option MmapPerms)

/-- Apply a sequence of engine operations. -/
def applyOps (h : QemuSnapshotHelper) : List EngineOp → QemuSnapshotHelper
  | [] => h
  | EngineOp.access a s :: rest => applyOps (h.access a s) rest
  | EngineOp.add_mapped a s p :: rest => applyOps (h.add_mapped a s p) rest

/-- The page `p` is tracked but not yet queued: its record exists and is
clean, no dirty-queue entry mentions it, and it is not in the access cache. -/
def NotQueued (h : QemuSnapshotHelper) (p : Nat) : Prop :=
  (∃ info, h.pages p = some info ∧ info.dirty = false) ∧
  h.dirty.count p = 0 ∧ ∀ i : Fin 4, h.access_cache i ≠ p

/-- The page `p` is queued exactly once and its record is marked dirty. -/
def QueuedOnce (h : QemuSnapshotHelper) (p : Nat) : Prop :=
  (∃ info, h.pages p = some info ∧ info.dirty = true) ∧ h.dirty.count p = 1

/-- Every page whose record is marked dirty sits in the dirty queue. -/
def DirtyImpliesQueued (h : QemuSnapshotHelper) : Prop :=
  ∀ a info, h.pages a = some info → info.dirty = true → a ∈ h.dirty

/-! Concrete fixtures used by the counterexample and witness theorems. -/

/-- Read-write permissions. -/
def permRW : MmapPerms := ⟨true, true, false⟩

/-- Read-only permissions. -/
def permRO : MmapPerms := ⟨true, false, false⟩

/-- A writable private mapping `[0x1000, 0x2000)`. -/
def mapA : MapInfo := ⟨0x1000, 0x2000, permRW, true⟩

/-- A backend with one writable zero-filled mapping `[0x1000, 0x2000)`. -/
def emuA : Emulator :=
  { brk := 7, mem := fun _ => 0, mappings := [mapA], prot_requests := [] }

/-- The page record captured for page `0x1000` of `emuA`. -/
def pageA : SnapshotPageInfo := snapshot_page emuA mapA 0x1000

/-- The engine after taking a baseline snapshot of `emuA`. -/
def helperA : QemuSnapshotHelper := QemuSnapshotHelper.new.snapshot emuA

/-- `emuA` after the target wrote `0xFF` over the four bytes at `0x1000`. -/
def emuAWritten : Emulator :=
  { emuA with mem := fun a => if 0x1000 ≤ a ∧ a < 0x1004 then 0xFF else 0 }

/-- A backend with one writable zero-filled mapping `[0x2000, 0x3000)`. -/
def emuB : Emulator :=
  { brk := 0, mem := fun _ => 0, mappings := [⟨0x2000, 0x3000, permRW, true⟩],
    prot_requests := [] }

/-- Snapshot of `emuB`, followed by a recorded reprotection of
`[0x1004, 0x3004)` to read-only (covering the baseline page `0x2000`). -/
def helperB : QemuSnapshotHelper :=
  (QemuSnapshotHelper.new.snapshot emuB).add_mapped 0x1004 0x2000 (some permRO)

/-- A primed engine with no page records and one recorded post-baseline
mapping `[0x1004, 0x2004)` (an unaligned-start interval of one page size). -/
def helperC : QemuSnapshotHelper :=
  QemuSnapshotHelper.new.add_mapped 0x1004 0x1000 none

/-- The engine/backend pair after a snapshot of `e0`, an operation sequence,
and one reset against `e`. -/
def resetOf (e0 e : Emulator) (ops : List EngineOp) :
    QemuSnapshotHelper × Emulator :=
  (applyOps (QemuSnapshotHelper.new.snapshot e0) ops).reset e

/-! ## Theorems -/

/-- C1: the restore-correctness claim fails on the code.  Address `0x1000` lies
in a page captured with original contents at baseline (`emuA` is all zeros
there); after the notified write of `0xFF` over `[0x1000, 0x1004)` and a
`reset`, the backend still reads `0xFF` at `0x1000` instead of the baseline
value `0`: `access` masks with `addr & (SNAPSHOT_PAGE_SIZE - 1)`, so the dirty
queue receives the offsets `0` and `3` rather than the page `0x1000`, and the
drain never rewrites the captured page. -/
theorem C1_reset_does_not_restore :
    ((helperA.pages 0x1000).map fun i => i.data.isSome) = some true ∧
    emuA.mem 0x1000 = 0 ∧
    (helperA.access 0x1000 4).dirty = [3, 0] ∧
    (((helperA.access 0x1000 4).reset emuAWritten).2.mem 0x1000 = 0xFF) := by
  decide

/-- C2: the cross-page-splitting claim fails on the code.  `access` computes
`addr & (SNAPSHOT_PAGE_SIZE - 1)` — the offset within the page, not the page
containing `addr` — so `access 0x1000 1` marks "page" `0` instead of page
`0x1000`, and `access 0 2` (a write entirely inside page `0`) marks the two
values `0` and `1` even though no page boundary is crossed. -/
theorem C2_access_marks_offsets :
    (QemuSnapshotHelper.new.access 0x1000 1).dirty = [0] ∧
    (QemuSnapshotHelper.new.access 0 2).dirty = [1, 0] := by
  decide

/-- C3 counterexample: on an engine with no page records, accessing page `0`,
then pages `1`–`4` (which evict `0` from the 4-entry round-robin cache), then
page `0` again produces two dirty-queue entries for page `0`, refuting
"exactly one entry regardless of N and of the cache hit/miss pattern,
including the record-less eviction case". -/
theorem C3_duplicate_when_evicted :
    ((((((QemuSnapshotHelper.new.page_access 0).page_access 1).page_access 2
        ).page_access 3).page_access 4).page_access 0).dirty.count 0 = 2 := by
  decide

/-- C4: the mprotect-recording claim fails on the code.  For a successful
mprotect post-syscall event with address `0x1000`, length `0x2000`, and
protection `3` (read-write), the adapter records the interval
`[0x1000, 0x1003)` — the protection argument `a2` is used as the size instead
of the length argument `a1`. -/
theorem C4_mprotect_records_prot_as_length :
    (trace_mmap_snapshot QemuSnapshotHelper.new 0 SYS_mprotect
        0x1000 0x2000 3 0 0 0 0 0).1.new_maps
      = [(0x1000, 0x1003, some permRW)] := by
  decide

/-- C5: the permission-reconciliation claim fails on the code.  Baseline page
`0x2000` has permission read-write; the ledger records `[0x1004, 0x3004)`
with permission read-only (covering `0x2000`), yet `reset` issues no
protection-change request at all: `reset_maps` starts its walk at
`start & (SNAPSHOT_PAGE_SIZE - 1) = 4` and visits `4`, `0x1004`, `0x2004`,
never the record at `0x2000`. -/
theorem C5_no_protection_request :
    ((helperB.pages 0x2000).map fun i => i.perms) = some permRW ∧
    permRW ≠ permRO ∧
    (helperB.reset emuB).2.prot_requests = [] := by
  decide

/-- C6: the new-mapping-cleanup claim fails on the code.  The recorded mapping
`[0x1004, 0x2004)` has no page records; its full page range is
`[0x1000, 0x3000)`, but the computed unmap candidate is the single run
`(4, 8192)` covering `[4, 0x2004)` — address `0x2FFF` (a byte of the page
containing the mapping's last byte) is not covered.  The ledger is empty
afterwards. -/
theorem C6_unmap_candidate_misses_pages :
    (helperC.reset_maps emuB).2.2 = [[(4, 8192)]] ∧
    (¬ ∃ q ∈ [((4 : Nat), (8192 : Nat))], q.1 ≤ 0x2FFF ∧ 0x2FFF < q.1 + q.2) ∧
    (helperC.reset_maps emuB).1.new_maps = [] := by
  decide

/-- C7: a failed post-syscall event (return value `u64::MAX`) creates no
ledger entry and leaves the engine untouched, and every post-syscall event —
failed, matched, or unrecognized — returns the incoming return value
unchanged. -/
theorem C7_failed_ignored_and_passthrough (h : QemuSnapshotHelper)
    (result : Nat) (sys_num : Int) (a0 a1 a2 a3 a4 a5 a6 a7 : Nat) :
    (result = U64_MAX →
      (trace_mmap_snapshot h result sys_num a0 a1 a2 a3 a4 a5 a6 a7).1 = h) ∧
    (trace_mmap_snapshot h result sys_num a0 a1 a2 a3 a4 a5 a6 a7).2 = result := by
  constructor
  · intro hr
    simp [trace_mmap_snapshot, hr]
  · unfold trace_mmap_snapshot
    repeat' split
    all_goals rfl

/-- C7 witness: the theorem applied to a concrete failed mmap event. -/
theorem C7_failed_ignored_and_passthrough_witness :
    (trace_mmap_snapshot QemuSnapshotHelper.new U64_MAX SYS_mmap
        0x2000 0x1000 3 0 0 0 0 0).1 = QemuSnapshotHelper.new ∧
    (trace_mmap_snapshot QemuSnapshotHelper.new U64_MAX SYS_mmap
        0x2000 0x1000 3 0 0 0 0 0).2 = U64_MAX :=
  ⟨(C7_failed_ignored_and_passthrough QemuSnapshotHelper.new U64_MAX SYS_mmap
      0x2000 0x1000 3 0 0 0 0 0).1 rfl,
   (C7_failed_ignored_and_passthrough QemuSnapshotHelper.new U64_MAX SYS_mmap
      0x2000 0x1000 3 0 0 0 0 0).2⟩

/-- Draining the dirty queue rewrites the page store pointwise: a popped page
keeps its record with the dirty flag cleared, every other key is untouched. -/
theorem drain_dirty_pages (l : List Nat) :
    ∀ (e : Emulator) (ps : Nat → Option SnapshotPageInfo) (a : Nat),
    (drain_dirty e ps l).2 a =
      if a ∈ l then (ps a).map (fun i => { i with dirty := false }) else ps a := by
  induction l with
  | nil =>
    intro e ps a
    simp [drain_dirty]
  | cons p rest ih =>
    intro e ps a
    cases hp : ps p with
    | none =>
      rw [drain_dirty, hp, ih]
      by_cases hap : a = p
      · subst hap
        by_cases har : a ∈ rest <;> simp [har, hp]
      · by_cases har : a ∈ rest <;> simp [har, hap]
    | some info =>
      rw [drain_dirty, hp]
      simp only
      rw [ih]
      by_cases hap : a = p
      · subst hap
        by_cases har : a ∈ rest <;> simp [har, hp]
      · by_cases har : a ∈ rest <;> simp [har, hap]

/-- Membership in a snapshot page walk with sufficient fuel: exactly the
page-size-strided addresses from `start` below `stop`. -/
theorem walk_pages_fuel_mem (fuel : Nat) :
    ∀ (start stop a : Nat), stop ≤ start + fuel * SNAPSHOT_PAGE_SIZE →
    (a ∈ walk_pages_fuel fuel start stop ↔
      ∃ k, a = start + SNAPSHOT_PAGE_SIZE * k ∧ a < stop) := by
  induction fuel with
  | zero =>
    intro start stop a hf
    simp only [walk_pages_fuel, List.not_mem_nil, false_iff]
    rintro ⟨k, rfl, hlt⟩
    simp only [SNAPSHOT_PAGE_SIZE] at hf hlt
    omega
  | succ n ih =>
    intro start stop a hf
    rw [walk_pages_fuel]
    by_cases hs : start < stop
    · rw [if_pos hs, List.mem_cons,
        ih (start + SNAPSHOT_PAGE_SIZE) stop a
          (by simp only [SNAPSHOT_PAGE_SIZE] at hf ⊢; omega)]
      constructor
      · rintro (rfl | ⟨k, rfl, hlt⟩)
        · exact ⟨0, by simp, hs⟩
        · exact ⟨k + 1, by simp only [SNAPSHOT_PAGE_SIZE]; ring, hlt⟩
      · rintro ⟨k, rfl, hlt⟩
        cases k with
        | zero => exact Or.inl (by simp)
        | succ j =>
          exact Or.inr ⟨j, by simp only [SNAPSHOT_PAGE_SIZE]; ring, hlt⟩
    · rw [if_neg hs]
      simp only [List.not_mem_nil, false_iff]
      rintro ⟨k, rfl, hlt⟩
      omega

/-- Membership in the snapshot walk of a region. -/
theorem walk_pages_mem (start stop a : Nat) :
    a ∈ walk_pages start stop ↔
      ∃ k, a = start + SNAPSHOT_PAGE_SIZE * k ∧ a < stop := by
  refine walk_pages_fuel_mem stop start stop a ?_
  simp only [SNAPSHOT_PAGE_SIZE]
  omega

/-- Lookup after folding `insert_page` over a list of page addresses. -/
theorem foldl_insert_lookup (e : Emulator) (m : MapInfo) (L : List Nat) :
    ∀ (ps : Nat → Option SnapshotPageInfo) (a : Nat),
    (L.foldl (insert_page e m) ps) a =
      if a ∈ L then some (snapshot_page e m a) else ps a := by
  induction L with
  | nil =>
    intro ps a
    simp
  | cons x L ih =>
    intro ps a
    rw [List.foldl_cons, ih]
    by_cases hx : a = x
    · subst hx
      by_cases hL : a ∈ L <;> simp [hL, insert_page]
    · by_cases hL : a ∈ L <;> simp [hL, hx, insert_page]

/-- Lookup after the snapshot walk of one mapping. -/
theorem snapshot_map_lookup (e : Emulator) (ps : Nat → Option SnapshotPageInfo)
    (m : MapInfo) (a : Nat) :
    snapshot_map e ps m a =
      if a ∈ walk_pages m.start m.stop then some (snapshot_page e m a)
      else ps a :=
  foldl_insert_lookup e m (walk_pages m.start m.stop) ps a

/-- A key is present after the snapshot fold iff some processed mapping's walk
visits it, or it was already present. -/
theorem snapshot_fold_isSome (e : Emulator) (ms : List MapInfo) :
    ∀ (ps : Nat → Option SnapshotPageInfo) (a : Nat),
    ((ms.foldl (snapshot_map e) ps) a).isSome = true ↔
      (∃ m ∈ ms, a ∈ walk_pages m.start m.stop) ∨ (ps a).isSome = true := by
  induction ms with
  | nil =>
    intro ps a
    simp
  | cons m ms ih =>
    intro ps a
    rw [List.foldl_cons, ih]
    by_cases hw : a ∈ walk_pages m.start m.stop
    · rw [snapshot_map_lookup, if_pos hw]
      refine ⟨fun _ => Or.inl ⟨m, List.mem_cons_self m ms, hw⟩,
        fun _ => Or.inr (by simp)⟩
    · rw [snapshot_map_lookup, if_neg hw]
      constructor
      · rintro (⟨m1, hm1, hw1⟩ | hp)
        · exact Or.inl ⟨m1, List.mem_cons_of_mem _ hm1, hw1⟩
        · exact Or.inr hp
      · rintro (⟨m1, hm1, hw1⟩ | hp)
        · rcases List.mem_cons.mp hm1 with rfl | hm2
          · exact absurd hw1 hw
          · exact Or.inl ⟨m1, hm2, hw1⟩
        · exact Or.inr hp

/-- Any record present after the snapshot fold was produced by the walk of one
of the processed mappings, or was already present. -/
theorem snapshot_fold_provenance (e : Emulator) (ms : List MapInfo) :
    ∀ (ps : Nat → Option SnapshotPageInfo) (a : Nat) (info : SnapshotPageInfo),
    (ms.foldl (snapshot_map e) ps) a = some info →
    (∃ m ∈ ms, a ∈ walk_pages m.start m.stop ∧ info = snapshot_page e m a) ∨
      ps a = some info := by
  induction ms with
  | nil =>
    intro ps a info hsome
    exact Or.inr (by simpa using hsome)
  | cons m ms ih =>
    intro ps a info hsome
    rw [List.foldl_cons] at hsome
    rcases ih _ a info hsome with ⟨m1, hm1, hw1, rfl⟩ | hps
    · exact Or.inl ⟨m1, List.mem_cons_of_mem _ hm1, hw1, rfl⟩
    · rw [snapshot_map_lookup] at hps
      by_cases hw : a ∈ walk_pages m.start m.stop
      · rw [if_pos hw] at hps
        exact Or.inl ⟨m, List.mem_cons_self m ms, hw, (Option.some.inj hps).symm⟩
      · rw [if_neg hw] at hps
        exact Or.inr hps

/-- C9: after `snapshot`, a page record exists for `A` iff `A` is one of the
page-size-strided addresses of some enumerated mapping (walked from start
inclusive to end exclusive); every record carries the mapping's permissions
and private flag, is clean, has contents absent iff the mapping was not
writable, and when writable the contents are exactly the one page of backend
memory read at `A`. -/
theorem C9_snapshot_page_store (h0 : QemuSnapshotHelper) (e : Emulator) :
    (∀ a, (((h0.snapshot e).pages a).isSome = true) ↔
      ∃ m ∈ e.mappings, ∃ k, a = m.start + SNAPSHOT_PAGE_SIZE * k ∧ a < m.stop) ∧
    (∀ a info, (h0.snapshot e).pages a = some info →
      ∃ m ∈ e.mappings,
        (∃ k, a = m.start + SNAPSHOT_PAGE_SIZE * k ∧ a < m.stop) ∧
        info.addr = a ∧ info.perms = m.flags ∧ info.priv = m.is_priv ∧
        info.dirty = false ∧ (info.data = none ↔ m.flags.is_w = false) ∧
        (m.flags.is_w = true → info.data = some (e.read_page a))) := by
  constructor
  · intro a
    show ((e.mappings.foldl (snapshot_map e) (fun _ => none)) a).isSome = true ↔ _
    rw [snapshot_fold_isSome]
    simp only [Option.isSome_none, Bool.false_eq_true, or_false]
    simp only [walk_pages_mem]
  · intro a info hsome
    have hsome1 : (e.mappings.foldl (snapshot_map e) (fun _ => none)) a = some info :=
      hsome
    rcases snapshot_fold_provenance e e.mappings _ a info hsome1 with
      ⟨m, hm, hw, rfl⟩ | hps
    · refine ⟨m, hm, (walk_pages_mem _ _ _).mp hw, rfl, rfl, rfl, rfl, ?_, ?_⟩
      · cases hwb : m.flags.is_w <;> simp [snapshot_page, hwb]
      · intro hwb
        simp [snapshot_page, hwb]
    · exact Option.noConfusion hps

/-- C9 witness: the theorem applied to the concrete backend `emuA` at page
`0x1000`, whose record is `pageA`. -/
theorem C9_snapshot_page_store_witness :
    (((QemuSnapshotHelper.new.snapshot emuA).pages 0x1000).isSome = true ↔
      ∃ m ∈ emuA.mappings,
        ∃ k, 0x1000 = m.start + SNAPSHOT_PAGE_SIZE * k ∧ 0x1000 < m.stop) ∧
    (∃ m ∈ emuA.mappings,
      (∃ k, (0x1000 : Nat) = m.start + SNAPSHOT_PAGE_SIZE * k ∧ 0x1000 < m.stop) ∧
      pageA.addr = 0x1000 ∧ pageA.perms = m.flags ∧ pageA.priv = m.is_priv ∧
      pageA.dirty = false ∧ (pageA.data = none ↔ m.flags.is_w = false) ∧
      (m.flags.is_w = true → pageA.data = some (emuA.read_page 0x1000))) :=
  ⟨(C9_snapshot_page_store QemuSnapshotHelper.new emuA).1 0x1000,
   (C9_snapshot_page_store QemuSnapshotHelper.new emuA).2 0x1000 pageA rfl⟩

/-- `page_access q` for `q ≠ p` leaves `p`'s dirty-queue count and record
untouched and never introduces `p` into the access cache. -/
theorem page_access_other (h : QemuSnapshotHelper) (p q : Nat) (hne : q ≠ p) :
    (h.page_access q).dirty.count p = h.dirty.count p ∧
    (h.page_access q).pages p = h.pages p ∧
    ∀ i : Fin 4, h.access_cache i ≠ p → (h.page_access q).access_cache i ≠ p := by
  have hpq : p ≠ q := Ne.symm hne
  by_cases hc : h.access_cache 0 = q ∨ h.access_cache 1 = q ∨
      h.access_cache 2 = q ∨ h.access_cache 3 = q
  · simp [QemuSnapshotHelper.page_access, hc]
  · have hupd : ∀ i : Fin 4, h.access_cache i ≠ p →
        Function.update h.access_cache h.access_cache_idx q i ≠ p := by
      intro i hi
      rw [Function.update_apply]
      by_cases hidx : i = h.access_cache_idx <;> simp [hidx, hne, hi]
    cases hq : h.pages q with
    | some info =>
      by_cases hd : info.dirty
      · refine ⟨?_, ?_, fun i hi => ?_⟩
        · simp [QemuSnapshotHelper.page_access, hc, hq, hd]
        · simp [QemuSnapshotHelper.page_access, hc, hq, hd]
        · simpa [QemuSnapshotHelper.page_access, hc, hq, hd] using hupd i hi
      · refine ⟨?_, ?_, fun i hi => ?_⟩
        · simp [QemuSnapshotHelper.page_access, hc, hq, hd, List.count_cons, hpq]
        · simp [QemuSnapshotHelper.page_access, hc, hq, hd, hpq]
        · simpa [QemuSnapshotHelper.page_access, hc, hq, hd] using hupd i hi
    | none =>
      refine ⟨?_, ?_, fun i hi => ?_⟩
      · simp [QemuSnapshotHelper.page_access, hc, hq, List.count_cons, hpq]
      · simp [QemuSnapshotHelper.page_access, hc, hq]
      · simpa [QemuSnapshotHelper.page_access, hc, hq] using hupd i hi

/-- From a tracked-but-unqueued state, `page_access p` queues `p` exactly once
and marks its record dirty. -/
theorem page_access_self_notQueued (h : QemuSnapshotHelper) (p : Nat)
    (hN : NotQueued h p) : QueuedOnce (h.page_access p) p := by
  obtain ⟨⟨info, hrec, hclean⟩, hcount, hcache⟩ := hN
  have hc : ¬(h.access_cache 0 = p ∨ h.access_cache 1 = p ∨
      h.access_cache 2 = p ∨ h.access_cache 3 = p) := by
    push_neg
    exact ⟨hcache 0, hcache 1, hcache 2, hcache 3⟩
  refine ⟨⟨{ info with dirty := true }, ?_, rfl⟩, ?_⟩
  · simp [QemuSnapshotHelper.page_access, hc, hrec, hclean]
  · simp [QemuSnapshotHelper.page_access, hc, hrec, hclean, List.count_cons,
      hcount]

/-- Once `p` is queued exactly once with a dirty record, any further
`page_access` keeps it that way. -/
theorem page_access_queuedOnce (h : QemuSnapshotHelper) (p q : Nat)
    (hQ : QueuedOnce h p) : QueuedOnce (h.page_access q) p := by
  obtain ⟨⟨info, hrec, hdirty⟩, hcount⟩ := hQ
  by_cases hqp : q = p
  · subst hqp
    by_cases hc : h.access_cache 0 = q ∨ h.access_cache 1 = q ∨
        h.access_cache 2 = q ∨ h.access_cache 3 = q
    · refine ⟨⟨info, ?_, hdirty⟩, ?_⟩ <;>
        simp [QemuSnapshotHelper.page_access, hc, hrec, hdirty, hcount]
    · refine ⟨⟨info, ?_, hdirty⟩, ?_⟩ <;>
        simp [QemuSnapshotHelper.page_access, hc, hrec, hdirty, hcount]
  · have H := page_access_other h p q hqp
    exact ⟨⟨info, by rw [H.2.1]; exact hrec, hdirty⟩, by rw [H.1]; exact hcount⟩

/-- `QueuedOnce` is preserved by any sequence of `page_access` calls. -/
theorem foldl_page_access_queuedOnce (p : Nat) (l : List Nat) :
    ∀ h : QemuSnapshotHelper, QueuedOnce h p →
    QueuedOnce (l.foldl QemuSnapshotHelper.page_access h) p := by
  induction l with
  | nil =>
    intro h hQ
    simpa using hQ
  | cons q l ih =>
    intro h hQ
    rw [List.foldl_cons]
    exact ih _ (page_access_queuedOnce h p q hQ)

/-- `NotQueued` is preserved by `page_access` on a different page. -/
theorem page_access_notQueued (h : QemuSnapshotHelper) (p q : Nat)
    (hne : q ≠ p) (hN : NotQueued h p) : NotQueued (h.page_access q) p := by
  obtain ⟨⟨info, hrec, hclean⟩, hcount, hcache⟩ := hN
  have H := page_access_other h p q hne
  exact ⟨⟨info, by rw [H.2.1]; exact hrec, hclean⟩,
    by rw [H.1]; exact hcount, fun i => H.2.2 i (hcache i)⟩

/-- C3 (amended): for a page `p` that has a clean page record, no dirty-queue
entry, and no access-cache entry, any sequence of `page_access` calls that
mentions `p` at least once (N accesses of `p`, arbitrary interleaving, no
intervening reset) leaves exactly one dirty-queue entry for `p`, regardless of
N and of the cache hit/miss pattern. -/
theorem C3_record_page_queued_once (p : Nat) (l : List Nat) :
    ∀ h : QemuSnapshotHelper, NotQueued h p → p ∈ l →
    (l.foldl QemuSnapshotHelper.page_access h).dirty.count p = 1 := by
  induction l with
  | nil =>
    intro h _ hmem
    simp at hmem
  | cons q l ih =>
    intro h hN hmem
    rw [List.foldl_cons]
    by_cases hqp : q = p
    · subst hqp
      exact (foldl_page_access_queuedOnce q l _
        (page_access_self_notQueued h q hN)).2
    · rcases List.mem_cons.mp hmem with heq | hmem2
      · exact absurd heq.symm hqp
      · exact ih _ (page_access_notQueued h p q hqp hN) hmem2

/-- C3 witness: the amended theorem applied to the snapshotted engine
`helperA` and the single access of page `0x1000`. -/
theorem C3_record_page_queued_once_witness :
    ([0x1000].foldl QemuSnapshotHelper.page_access helperA).dirty.count 0x1000
      = 1 :=
  C3_record_page_queued_once 0x1000 [0x1000] helperA
    ⟨⟨pageA, rfl, rfl⟩, rfl, by decide⟩ (by decide)

/-- `page_access` keeps the invariant that every dirty-flagged record sits in
the dirty queue: a record's flag is only set together with a queue push. -/
theorem page_access_dirtyImpliesQueued (h : QemuSnapshotHelper) (q : Nat)
    (hI : DirtyImpliesQueued h) : DirtyImpliesQueued (h.page_access q) := by
  intro a info ha hd
  by_cases hc : h.access_cache 0 = q ∨ h.access_cache 1 = q ∨
      h.access_cache 2 = q ∨ h.access_cache 3 = q
  · simp only [QemuSnapshotHelper.page_access, if_pos hc] at ha ⊢
    exact hI a info ha hd
  · cases hq : h.pages q with
    | some iq =>
      by_cases hdq : iq.dirty
      · simp [QemuSnapshotHelper.page_access, hc, hq, hdq] at ha ⊢
        exact hI a info ha hd
      · simp [QemuSnapshotHelper.page_access, hc, hq, hdq] at ha ⊢
        by_cases haq : a = q
        · exact Or.inl haq
        · rw [if_neg haq] at ha
          exact Or.inr (hI a info ha hd)
    | none =>
      simp [QemuSnapshotHelper.page_access, hc, hq] at ha ⊢
      exact Or.inr (hI a info ha hd)

/-- `access` keeps the dirty-flag/queue invariant. -/
theorem access_dirtyImpliesQueued (h : QemuSnapshotHelper) (addr size : Nat)
    (hI : DirtyImpliesQueued h) : DirtyImpliesQueued (h.access addr size) := by
  by_cases hsp : addr % SNAPSHOT_PAGE_SIZE ≠
      ((addr + size - 1) % 2 ^ 64) % SNAPSHOT_PAGE_SIZE
  · simp only [QemuSnapshotHelper.access, if_pos hsp]
    exact page_access_dirtyImpliesQueued _ _
      (page_access_dirtyImpliesQueued _ _ hI)
  · simp only [QemuSnapshotHelper.access, if_neg hsp]
    exact page_access_dirtyImpliesQueued _ _ hI

/-- `add_mapped` keeps the dirty-flag/queue invariant (it only touches the
ledger). -/
theorem add_mapped_dirtyImpliesQueued (h : QemuSnapshotHelper)
    (start size : Nat) (perms : Option MmapPerms) (hI : DirtyImpliesQueued h) :
    DirtyImpliesQueued (h.add_mapped start size perms) :=
  fun a info ha hd => hI a info ha hd

/-- Any sequence of engine operations keeps the dirty-flag/queue invariant. -/
theorem applyOps_dirtyImpliesQueued (ops : List EngineOp) :
    ∀ h : QemuSnapshotHelper, DirtyImpliesQueued h →
    DirtyImpliesQueued (applyOps h ops) := by
  induction ops with
  | nil =>
    intro h hI
    exact hI
  | cons op rest ih =>
    intro h hI
    cases op with
    | access a s => exact ih _ (access_dirtyImpliesQueued h a s hI)
    | add_mapped a s p => exact ih _ (add_mapped_dirtyImpliesQueued h a s p hI)

/-- Every record produced by `snapshot` is clean. -/
theorem snapshot_allClean (h0 : QemuSnapshotHelper) (e : Emulator) :
    ∀ a info, (h0.snapshot e).pages a = some info → info.dirty = false := by
  intro a info ha
  rcases snapshot_fold_provenance e e.mappings _ a info ha with
    ⟨m, _, _, rfl⟩ | hps
  · rfl
  · exact Option.noConfusion hps

/-- A freshly snapshotted engine satisfies the dirty-flag/queue invariant. -/
theorem snapshot_dirtyImpliesQueued (h0 : QemuSnapshotHelper) (e : Emulator) :
    DirtyImpliesQueued (h0.snapshot e) := by
  intro a info ha hd
  rw [snapshot_allClean h0 e a info ha] at hd
  exact Bool.noConfusion hd

/-- Under the dirty-flag/queue invariant, every record is clean after
`reset`. -/
theorem reset_pages_clean (h : QemuSnapshotHelper) (e : Emulator)
    (hI : DirtyImpliesQueued h) :
    ∀ a info, (h.reset e).1.pages a = some info → info.dirty = false := by
  intro a info ha
  have hp : (h.reset e).1.pages a =
      if a ∈ h.dirty then (h.pages a).map (fun i => { i with dirty := false })
      else h.pages a :=
    drain_dirty_pages h.dirty (h.reset_maps e).2.1 h.pages a
  rw [hp] at ha
  by_cases hd : a ∈ h.dirty
  · rw [if_pos hd] at ha
    cases hpa : h.pages a with
    | none =>
      rw [hpa] at ha
      exact Option.noConfusion ha
    | some i =>
      rw [hpa] at ha
      rw [← Option.some.inj ha]
  · rw [if_neg hd] at ha
    cases hdi : info.dirty with
    | false => rfl
    | true => exact absurd (hI a info ha hdi) hd

/-- A reset of an engine whose queue, ledger, and cache are already in their
post-reset configuration, against a backend whose brk already matches, is a
no-op. -/
theorem reset_fixpoint (h : QemuSnapshotHelper) (e : Emulator)
    (hd : h.dirty = []) (hm : h.new_maps = [])
    (hcache : h.access_cache = fun _ => U64_MAX) (hidx : h.access_cache_idx = 0)
    (hb : e.brk = h.brk) : h.reset e = (h, e) := by
  obtain ⟨c, ci, ps, d, b, nm, emp⟩ := h
  obtain ⟨eb, em, emap, epr⟩ := e
  simp only at hd hm hcache hidx hb
  subst hd hm hcache hidx hb
  rfl

/-- C8: after a snapshot, any sequence of `access`/`add_mapped` operations,
and one `reset`, an immediately following second `reset` is the identity on
the engine/backend pair; the dirty queue is already empty, the access cache
already holds only the `u64::MAX` sentinel, the ledger is already empty, and
every page record is already clean. -/
theorem C8_reset_idempotent (e0 e : Emulator) (ops : List EngineOp) :
    (resetOf e0 e ops).1.reset (resetOf e0 e ops).2 = resetOf e0 e ops ∧
    (resetOf e0 e ops).1.dirty = [] ∧
    (resetOf e0 e ops).1.access_cache = (fun _ => U64_MAX) ∧
    (resetOf e0 e ops).1.new_maps = [] ∧
    ∀ a info, (resetOf e0 e ops).1.pages a = some info → info.dirty = false := by
  have hI : DirtyImpliesQueued (applyOps (QemuSnapshotHelper.new.snapshot e0) ops) :=
    applyOps_dirtyImpliesQueued ops _ (snapshot_dirtyImpliesQueued _ e0)
  exact ⟨reset_fixpoint _ _ rfl rfl rfl rfl rfl, rfl, rfl, rfl,
    reset_pages_clean _ e hI⟩

/-- C8 witness: the theorem applied to the snapshot of `emuA`, one write
access, and a reset against the written backend. -/
theorem C8_reset_idempotent_witness :
    (resetOf emuA emuAWritten [EngineOp.access 0x1000 4]).1.reset
        (resetOf emuA emuAWritten [EngineOp.access 0x1000 4]).2
      = resetOf emuA emuAWritten [EngineOp.access 0x1000 4] ∧
    pageA.dirty = false :=
  ⟨(C8_reset_idempotent emuA emuAWritten [EngineOp.access 0x1000 4]).1,
   (C8_reset_idempotent emuA emuAWritten [EngineOp.access 0x1000 4]).2.2.2.2
     0x1000 pageA rfl⟩

/-- C10: `reset` never modifies the captured baseline: the engine's brk, the
page-store key set, and every record's address, permissions, private flag, and
original contents are unchanged; the dirty queue, ledger, access cache, and
round-robin index leave in their cleared configuration, and the primed flag is
untouched. -/
theorem C10_reset_frame (h : QemuSnapshotHelper) (e : Emulator) :
    (h.reset e).1.brk = h.brk ∧
    (h.reset e).1.dirty = [] ∧
    (h.reset e).1.new_maps = [] ∧
    (h.reset e).1.access_cache = (fun _ => U64_MAX) ∧
    (h.reset e).1.access_cache_idx = 0 ∧
    (h.reset e).1.empty = h.empty ∧
    (∀ a, ((h.reset e).1.pages a).isSome = (h.pages a).isSome) ∧
    (∀ a i j, h.pages a = some i → (h.reset e).1.pages a = some j →
      j.addr = i.addr ∧ j.perms = i.perms ∧ j.priv = i.priv ∧
        j.data = i.data) := by
  refine ⟨rfl, rfl, rfl, rfl, rfl, rfl, ?_, ?_⟩
  · intro a
    have hp : (h.reset e).1.pages a =
        if a ∈ h.dirty then (h.pages a).map (fun i => { i with dirty := false })
        else h.pages a :=
      drain_dirty_pages h.dirty (h.reset_maps e).2.1 h.pages a
    rw [hp]
    by_cases hd : a ∈ h.dirty
    · rw [if_pos hd]
      cases h.pages a <;> simp
    · rw [if_neg hd]
  · intro a i j hi hj
    have hp : (h.reset e).1.pages a =
        if a ∈ h.dirty then (h.pages a).map (fun i => { i with dirty := false })
        else h.pages a :=
      drain_dirty_pages h.dirty (h.reset_maps e).2.1 h.pages a
    rw [hp] at hj
    by_cases hd : a ∈ h.dirty
    · rw [if_pos hd, hi] at hj
      rw [← Option.some.inj hj]
      exact ⟨rfl, rfl, rfl, rfl⟩
    · rw [if_neg hd, hi] at hj
      rw [← Option.some.inj hj]
      exact ⟨rfl, rfl, rfl, rfl⟩

/-- C10 witness: the theorem applied to `helperA` reset against the written
backend, at the baseline page `0x1000` with record `pageA`. -/
theorem C10_reset_frame_witness :
    (helperA.reset emuAWritten).1.brk = helperA.brk ∧
    ((helperA.reset emuAWritten).1.pages 0x1000).isSome
      = (helperA.pages 0x1000).isSome ∧
    (pageA.addr = pageA.addr ∧ pageA.perms = pageA.perms ∧
      pageA.priv = pageA.priv ∧ pageA.data = pageA.data) :=
  ⟨(C10_reset_frame helperA emuAWritten).1,
   (C10_reset_frame helperA emuAWritten).2.2.2.2.2.2.1 0x1000,
   (C10_reset_frame helperA emuAWritten).2.2.2.2.2.2.2 0x1000 pageA pageA rfl rfl⟩

end LibAFLSnapshot
